import Mathlib

/-!
Verification development for the carbonapi query pipeline.

The Go sources (`main.go`, `cache.go`, `cairo.go`) are embedded shallowly:

* `float64` values are modelled by `F64`: either NaN or an exact rational.
  The program only produces finite sums of finite inputs and divides by a
  count, so infinities never arise on the paths modelled here; rounding is
  idealised as exact rational arithmetic.
* Go slices become `List`s, Go `int`/`int32` become `ℕ`/`ℤ` (with explicit
  wrapping where a conversion can overflow).
* Goroutine fan-out and `select` races are modelled by explicit
  nondeterministic outcome values passed as arguments.
-/

/-- Model of Go `float64`: NaN or a finite value (idealised as a rational).
Infinities do not arise on the modelled code paths. -/
inductive F64 where
  | nan : F64
  | fin : ℚ → F64
deriving DecidableEq

namespace F64

/-- `math.IsNaN` -/
def isNaN : F64 → Bool
  | nan => true
  | fin _ => false

/-- Go `==` on float64: any comparison with NaN is false. -/
def feq : F64 → F64 → Bool
  | fin a, fin b => decide (a = b)
  | _, _ => false

/-- Go `>=` on float64: any comparison with NaN is false. -/
def fge : F64 → F64 → Bool
  | fin a, fin b => decide (b ≤ a)
  | _, _ => false

/-- Go `<` on float64: any comparison with NaN is false. -/
def flt : F64 → F64 → Bool
  | fin a, fin b => decide (a < b)
  | _, _ => false

/-- Go `>` on float64: any comparison with NaN is false. -/
def fgt : F64 → F64 → Bool
  | fin a, fin b => decide (b < a)
  | _, _ => false

/-- `math.Abs`; `Abs(NaN) = NaN`. -/
def fabs : F64 → F64
  | nan => nan
  | fin q => fin |q|

/-- Go `-` on float64 with NaN propagation. -/
def fsub : F64 → F64 → F64
  | fin a, fin b => fin (a - b)
  | _, _ => nan

/-- `math.Floor`; `Floor(NaN) = NaN`. -/
def ffloor : F64 → F64
  | nan => nan
  | fin q => fin (⌊q⌋ : ℤ)

end F64

/-! ## `AggregatedValues` (cairo.go:2510-2565)

The method body is a pure function of `(Values, IsAbsent, valuesPerPoint)`
plus a memo field; the pure computation is `metricAggregatedValues` below and
the memoisation is modelled in `MetricDataState`/`AggregatedValues`. -/

/-- The accumulation `sum += v[i]; n++` over one bucket, skipping slots with
`math.IsNaN(v[i]) || absent[i]` (cairo.go:2538-2543 and 2551-2558).
Only finite values are ever added, so the sum is an exact rational. -/
def bucketSumCount (v : List F64) (ab : List Bool) : ℚ × ℕ :=
  (v.zip ab).foldl
    (fun acc p =>
      match p.1, p.2 with
      | F64.fin q, false => (acc.1 + q, acc.2 + 1)
      | _, _ => acc)
    (0, 0)

/-- `sum / float64(n)` (cairo.go:2546, 2560).  The loop invariant gives
`n = 0 → sum = 0`, and IEEE `0.0/0.0` is NaN, which is the only division by
zero reachable here. -/
def fdivByCount (sum : ℚ) (n : ℕ) : F64 :=
  if n = 0 then F64.nan else F64.fin (sum / n)

/-- Average of the remaining slots: the `if len(v) > 0` tail-bucket block
(cairo.go:2549-2561), which folds the whole remainder into one bucket. -/
def tailBucket (v : List F64) (ab : List Bool) : List F64 :=
  if v.length = 0 then []
  else
    let s := bucketSumCount v ab
    [fdivByCount s.1 s.2]

/-- The `for len(v) >= r.valuesPerPoint` loop (cairo.go:2535-2547) followed by
the tail-bucket block.  The loop strictly shrinks `v` by `vpp ≥ 1` elements
per iteration; the explicit bound `fuel` (instantiated with `v.length`) makes
the recursion structural so that concrete runs reduce definitionally. -/
def consolidateGo (vpp : ℕ) : ℕ → List F64 → List Bool → List F64
  | 0, v, ab => tailBucket v ab
  | fuel + 1, v, ab =>
    if vpp ≤ v.length ∧ 1 ≤ vpp then
      let s := bucketSumCount (v.take vpp) (ab.take vpp)
      fdivByCount s.1 s.2 :: consolidateGo vpp fuel (v.drop vpp) (ab.drop vpp)
    else tailBucket v ab

/-- Body of `AggregatedValues` as a pure function of the three inputs
(cairo.go:2510-2565): the `valuesPerPoint ∈ {0,1}` branch copies values with
absent slots replaced by NaN; otherwise buckets of `valuesPerPoint` values are
averaged, with one partial bucket at the tail. -/
def metricAggregatedValues (vpp : ℕ) (values : List F64) (isAbsent : List Bool) :
    List F64 :=
  if vpp = 1 ∨ vpp = 0 then
    (values.zip isAbsent).map (fun p => if p.2 then F64.nan else p.1)
  else consolidateGo vpp values.length values isAbsent

/-- The fields of `metricData` that `AggregatedValues` reads and writes
(cairo.go; the struct itself lives in the repository's expr.go, its fields are
taken from the method bodies and §3 of the spec). -/
structure MetricDataState where
  Values : List F64
  IsAbsent : List Bool
  valuesPerPoint : ℕ
  aggregatedValues : Option (List F64)
deriving DecidableEq

/-- `func (r *metricData) AggregatedValues() []float64` (cairo.go:2510-2565):
returns the memo when `r.aggregatedValues != nil`, else computes, stores and
returns it.  Result value and updated receiver state. -/
def AggregatedValues (r : MetricDataState) : List F64 × MetricDataState :=
  match r.aggregatedValues with
  | some a => (a, r)
  | none =>
    let v := metricAggregatedValues r.valuesPerPoint r.Values r.IsAbsent
    (v, { r with aggregatedValues := some v })

/-- `series.valuesPerPoint = ...` as done by `consolidateDataPoints`
(cairo.go:948, 951): the assignment does not touch `aggregatedValues`. -/
def setValuesPerPoint (r : MetricDataState) (n : ℕ) : MetricDataState :=
  { r with valuesPerPoint := n }

/-! ### Specification-side description of one consolidated bucket -/

/-- The present (non-absent, non-NaN) values of a bucket. -/
def presentValues (v : List F64) (ab : List Bool) : List ℚ :=
  (v.zip ab).filterMap
    (fun p =>
      match p.1, p.2 with
      | F64.fin q, false => some q
      | _, _ => none)

/-- Arithmetic mean of the present values of a bucket; NaN when none. -/
def bucketMean (v : List F64) (ab : List Bool) : F64 :=
  let pres := presentValues v ab
  if pres.length = 0 then F64.nan else F64.fin (pres.sum / pres.length)

/-- Bucket `j`: the slice of `vpp` slots starting at `j * vpp`. -/
def bucketSlice (vpp : ℕ) (l : List α) (j : ℕ) : List α :=
  (l.drop (j * vpp)).take vpp

/-! ### Lemmas about the bucket computation -/

lemma bucketFold_eq (l : List (F64 × Bool)) (acc : ℚ × ℕ) :
    l.foldl
      (fun acc p =>
        match p.1, p.2 with
        | F64.fin q, false => (acc.1 + q, acc.2 + 1)
        | _, _ => acc) acc
    = (acc.1 + (l.filterMap
        (fun p =>
          match p.1, p.2 with
          | F64.fin q, false => some q
          | _, _ => none)).sum,
       acc.2 + (l.filterMap
        (fun p =>
          match p.1, p.2 with
          | F64.fin q, false => some q
          | _, _ => none)).length) := by
  induction l generalizing acc with
  | nil => simp
  | cons p t ih =>
    obtain ⟨x, b⟩ := p
    cases x <;> cases b <;>
      simp [List.foldl_cons, List.filterMap_cons, ih, Prod.ext_iff] <;>
      constructor <;> ring

lemma bucketSumCount_eq (v : List F64) (ab : List Bool) :
    bucketSumCount v ab = ((presentValues v ab).sum, (presentValues v ab).length) := by
  unfold bucketSumCount presentValues
  rw [bucketFold_eq]
  simp

lemma fdivByCount_bucketSumCount (v : List F64) (ab : List Bool) :
    fdivByCount (bucketSumCount v ab).1 (bucketSumCount v ab).2 = bucketMean v ab := by
  rw [bucketSumCount_eq]
  simp only [bucketMean, fdivByCount]

lemma bucketMean_single (x : F64) (b : Bool) :
    bucketMean [x] [b] = if b then F64.nan else x := by
  cases x <;> cases b <;> simp [bucketMean, presentValues]

lemma consolidateGo_length (vpp fuel : ℕ) (v : List F64) (ab : List Bool)
    (h1 : 1 ≤ vpp) (hfuel : v.length ≤ fuel) :
    (consolidateGo vpp fuel v ab).length = (v.length + vpp - 1) / vpp := by
  induction fuel generalizing v ab with
  | zero =>
    have hv : v.length = 0 := Nat.le_zero.mp hfuel
    simp [consolidateGo, tailBucket, hv, Nat.div_eq_of_lt (show vpp - 1 < vpp by omega)]
  | succ n ih =>
    by_cases hg : vpp ≤ v.length
    · rw [consolidateGo, if_pos ⟨hg, h1⟩]
      have hd : (v.drop vpp).length ≤ n := by
        simp only [List.length_drop]; omega
      rw [List.length_cons, ih _ _ hd, List.length_drop]
      have e1 : v.length - vpp + vpp - 1 = v.length - 1 := by omega
      have e2 : v.length + vpp - 1 = v.length - 1 + vpp := by omega
      rw [e1, e2, Nat.add_div_right _ (by omega)]
    · rw [consolidateGo, if_neg (by tauto)]
      by_cases hz : v.length = 0
      · simp [tailBucket, hz, Nat.div_eq_of_lt (show vpp - 1 < vpp by omega)]
      · rw [tailBucket, if_neg hz]
        have : (v.length + vpp - 1) / vpp = 1 :=
          Nat.div_eq_of_lt_le (by omega) (by omega)
        simp [this]

lemma consolidateGo_getElem (vpp fuel : ℕ) (v : List F64) (ab : List Bool)
    (h1 : 1 ≤ vpp) (hab : ab.length = v.length) (hfuel : v.length ≤ fuel)
    (j : ℕ) (hj : j < (v.length + vpp - 1) / vpp) :
    (consolidateGo vpp fuel v ab)[j]? =
      some (bucketMean (bucketSlice vpp v j) (bucketSlice vpp ab j)) := by
  induction fuel generalizing v ab j with
  | zero =>
    have hv : v.length = 0 := Nat.le_zero.mp hfuel
    rw [hv, Nat.div_eq_of_lt (show 0 + vpp - 1 < vpp by omega)] at hj
    omega
  | succ n ih =>
    by_cases hg : vpp ≤ v.length
    · rw [consolidateGo, if_pos ⟨hg, h1⟩]
      cases j with
      | zero =>
        simp only [List.getElem?_cons_zero, bucketSlice, Nat.zero_mul, List.drop_zero]
        rw [fdivByCount_bucketSumCount]
      | succ j =>
        simp only [List.getElem?_cons_succ]
        have hd : (v.drop vpp).length ≤ n := by
          simp only [List.length_drop]; omega
        have hj' : j < ((v.drop vpp).length + vpp - 1) / vpp := by
          rw [List.length_drop]
          have e1 : v.length - vpp + vpp - 1 = v.length - 1 := by omega
          have e2 : v.length + vpp - 1 = v.length - 1 + vpp := by omega
          rw [e1]
          rw [e2, Nat.add_div_right _ (by omega)] at hj
          omega
        have hab' : (ab.drop vpp).length = (v.drop vpp).length := by
          simp only [List.length_drop, hab]
        rw [ih _ _ hab' hd _ hj']
        have hs : ∀ (α : Type) (l : List α),
            bucketSlice vpp (l.drop vpp) j = bucketSlice vpp l (j + 1) := by
          intro α l
          have e : vpp + j * vpp = (j + 1) * vpp := by ring
          simp only [bucketSlice, List.drop_drop, e]
        rw [hs _ v, hs _ ab]
    · rw [consolidateGo, if_neg (by tauto)]
      have hlt : v.length < vpp := by omega
      by_cases hz : v.length = 0
      · rw [hz, Nat.div_eq_of_lt (show 0 + vpp - 1 < vpp by omega)] at hj
        omega
      · have hc : (v.length + vpp - 1) / vpp = 1 :=
          Nat.div_eq_of_lt_le (by omega) (by omega)
        rw [hc] at hj
        have hj0 : j = 0 := by omega
        subst hj0
        rw [tailBucket, if_neg hz]
        simp only [List.getElem?_cons_zero]
        rw [fdivByCount_bucketSumCount]
        have hsv : bucketSlice vpp v 0 = v := by
          simp [bucketSlice, List.take_of_length_le (le_of_lt hlt)]
        have hsa : bucketSlice vpp ab 0 = ab := by
          simp [bucketSlice, List.take_of_length_le (by omega : ab.length ≤ vpp)]
        rw [hsv, hsa]

lemma take_one_drop_eq_singleton {α : Type} (l : List α) (j : ℕ) (hj : j < l.length) :
    (l.drop j).take 1 = [l[j]] := by
  rw [List.drop_eq_getElem_cons hj]
  rfl

lemma metricAggregatedValues_length (vpp : ℕ) (values : List F64) (isAbsent : List Bool)
    (h1 : 1 ≤ vpp) (hab : isAbsent.length = values.length) :
    (metricAggregatedValues vpp values isAbsent).length
      = (values.length + vpp - 1) / vpp := by
  unfold metricAggregatedValues
  by_cases hv : vpp = 1 ∨ vpp = 0
  · have hv1 : vpp = 1 := by omega
    subst hv1
    rw [if_pos (Or.inl rfl)]
    simp [List.length_zip, hab]
  · rw [if_neg hv]
    exact consolidateGo_length vpp values.length values isAbsent h1 le_rfl

lemma metricAggregatedValues_getElem (vpp : ℕ) (values : List F64) (isAbsent : List Bool)
    (h1 : 1 ≤ vpp) (hab : isAbsent.length = values.length)
    (j : ℕ) (hj : j < (values.length + vpp - 1) / vpp) :
    (metricAggregatedValues vpp values isAbsent)[j]? =
      some (bucketMean (bucketSlice vpp values j) (bucketSlice vpp isAbsent j)) := by
  unfold metricAggregatedValues
  by_cases hv : vpp = 1 ∨ vpp = 0
  · have hv1 : vpp = 1 := by omega
    subst hv1
    rw [if_pos (Or.inl rfl)]
    have hjv : j < values.length := by
      simpa using hj
    have hja : j < isAbsent.length := by omega
    have hjz : j < (values.zip isAbsent).length := by
      simp [List.length_zip]; omega
    rw [List.getElem?_eq_getElem (by simpa using hjz)]
    have hsv : bucketSlice 1 values j = [values[j]] := by
      simpa [bucketSlice] using take_one_drop_eq_singleton values j hjv
    have hsa : bucketSlice 1 isAbsent j = [isAbsent[j]] := by
      simpa [bucketSlice] using take_one_drop_eq_singleton isAbsent j hja
    rw [hsv, hsa, bucketMean_single]
    simp [List.getElem_zip]
  · rw [if_neg hv]
    exact consolidateGo_getElem vpp values.length values isAbsent h1 hab le_rfl j hj

/-- C3: for `valuesPerPoint ≥ 1` and parallel `Values`/`IsAbsent`,
`AggregatedValues` has `⌈len/vpp⌉` entries (`len` when `vpp = 1`), each the
arithmetic mean of the present values of its bucket (`bucketMean` is NaN for
a fully absent/NaN bucket), and a trailing partial bucket is counted when
`len` is not a multiple of `vpp`. -/
theorem aggregatedValues_buckets_spec (vpp : ℕ) (values : List F64) (isAbsent : List Bool)
    (h1 : 1 ≤ vpp) (hab : isAbsent.length = values.length) :
    (metricAggregatedValues vpp values isAbsent).length
        = (values.length + vpp - 1) / vpp
    ∧ (vpp = 1 →
        (metricAggregatedValues vpp values isAbsent).length = values.length)
    ∧ (values.length % vpp ≠ 0 →
        (metricAggregatedValues vpp values isAbsent).length
          = values.length / vpp + 1)
    ∧ ∀ j, j < (values.length + vpp - 1) / vpp →
        (metricAggregatedValues vpp values isAbsent)[j]? =
          some (bucketMean (bucketSlice vpp values j) (bucketSlice vpp isAbsent j)) := by
  refine ⟨metricAggregatedValues_length vpp values isAbsent h1 hab, ?_, ?_, ?_⟩
  · intro hv1
    rw [metricAggregatedValues_length vpp values isAbsent h1 hab, hv1]
    simp
  · intro hmod
    rw [metricAggregatedValues_length vpp values isAbsent h1 hab]
    have hvpos : 0 < vpp := by omega
    have hmlt : values.length % vpp < vpp := Nat.mod_lt _ hvpos
    have e : values.length + vpp - 1 = values.length + (vpp - 1) := by omega
    rw [e, Nat.add_div hvpos, Nat.div_eq_of_lt (show vpp - 1 < vpp by omega),
      Nat.mod_eq_of_lt (show vpp - 1 < vpp by omega), if_pos (by omega)]
  · intro j hj
    exact metricAggregatedValues_getElem vpp values isAbsent h1 hab j hj

/-- Witness for C3 at `vpp = 2`, `Values = [1, 3, 10]`, all present: two
buckets, the trailing one partial. -/
theorem aggregatedValues_buckets_spec_witness :
    (metricAggregatedValues 2 [F64.fin 1, F64.fin 3, F64.fin 10]
        [false, false, false]).length = (3 + 2 - 1) / 2
    ∧ (metricAggregatedValues 2 [F64.fin 1, F64.fin 3, F64.fin 10]
        [false, false, false])[1]? =
        some (bucketMean
          (bucketSlice 2 [F64.fin 1, F64.fin 3, F64.fin 10] 1)
          (bucketSlice 2 [false, false, false] 1)) := by
  have h := aggregatedValues_buckets_spec 2 [F64.fin 1, F64.fin 3, F64.fin 10]
    [false, false, false] (by decide) (by decide)
  exact ⟨h.1, h.2.2.2 1 (by decide)⟩

/-- C10: with `valuesPerPoint ≥ 2`, a bucket all of whose slots are absent or
NaN still produces an output entry, and that entry is NaN. -/
theorem aggregatedValues_empty_bucket_nan (vpp : ℕ) (values : List F64)
    (isAbsent : List Bool) (j : ℕ)
    (h2 : 2 ≤ vpp) (hab : isAbsent.length = values.length)
    (hj : j < (values.length + vpp - 1) / vpp)
    (hempty : presentValues (bucketSlice vpp values j) (bucketSlice vpp isAbsent j) = []) :
    (metricAggregatedValues vpp values isAbsent).length
        = (values.length + vpp - 1) / vpp
    ∧ (metricAggregatedValues vpp values isAbsent)[j]? = some F64.nan := by
  refine ⟨metricAggregatedValues_length vpp values isAbsent (by omega) hab, ?_⟩
  rw [metricAggregatedValues_getElem vpp values isAbsent (by omega) hab j hj]
  rw [bucketMean, hempty]
  simp

/-- Witness for C10: bucket 1 of `[1, NaN, absent 7]` with `vpp = 2` is the
partial bucket `[absent 7]`, emitted as NaN. -/
theorem aggregatedValues_empty_bucket_nan_witness :
    (metricAggregatedValues 2 [F64.fin 1, F64.nan, F64.fin 7]
        [false, false, true]).length = (3 + 2 - 1) / 2
    ∧ (metricAggregatedValues 2 [F64.fin 1, F64.nan, F64.fin 7]
        [false, false, true])[1]? = some F64.nan := by
  exact aggregatedValues_empty_bucket_nan 2 [F64.fin 1, F64.nan, F64.fin 7]
    [false, false, true] 1 (by decide) (by decide) (by decide) (by decide)

/-- C8 counterexample: compute `AggregatedValues` at `valuesPerPoint = 1`,
then set `valuesPerPoint = 2` (as `consolidateDataPoints` does) and call
again: the stale memo is returned, not the consolidation for the current
`valuesPerPoint`. -/
theorem aggregatedValues_stale_memo_counterexample :
    (AggregatedValues (setValuesPerPoint
        (AggregatedValues ⟨[F64.fin 1, F64.fin 3], [false, false], 1, none⟩).2 2)).1
      ≠ metricAggregatedValues 2 [F64.fin 1, F64.fin 3] [false, false] := by
  intro h
  have hlen := congrArg List.length h
  revert hlen
  decide

/-- C8 amended: `AggregatedValues` returns the memo whenever set — even after
`valuesPerPoint` changed — and on a cold memo returns the consolidation for
the current `valuesPerPoint`. -/
theorem aggregatedValues_memo_spec (r : MetricDataState) (n : ℕ) :
    (AggregatedValues (setValuesPerPoint (AggregatedValues r).2 n)).1
        = (AggregatedValues r).1
    ∧ (AggregatedValues r).1
        = r.aggregatedValues.getD
            (metricAggregatedValues r.valuesPerPoint r.Values r.IsAbsent) := by
  obtain ⟨v, ab, vpp, memo⟩ := r
  cases memo <;> simp [AggregatedValues, setValuesPerPoint]

/-! ## `formatUnits` (cairo.go:1496-1523) and `unitSystems` (cairo.go:95-112) -/

/-- `v / fsize` for a positive table size (cairo.go:1512). -/
def fdivConst (v : F64) (size : ℚ) : F64 :=
  match v with
  | F64.nan => F64.nan
  | F64.fin a => F64.fin (a / size)

/-- The literal `0.00000000001` of cairo.go:1513,1520. -/
def formatEps : ℚ := 1 / 100000000000

/-- `unitSystems` (cairo.go:95-112); Go map lookup of a missing key gives the
nil slice. -/
def unitSystems (system : String) : List (String × ℕ) :=
  if system = "binary" then
    [("Pi", 1125899906842624), ("Ti", 1099511627776), ("Gi", 1073741824),
     ("Mi", 1048576), ("Ki", 1024)]
  else if system = "si" then
    [("P", 1000000000000000), ("T", 1000000000000), ("G", 1000000000),
     ("M", 1000000), ("K", 1000)]
  else []

/-- `formatUnits` (cairo.go:1496-1523).  `step == math.NaN()` is Go float
equality, `F64.feq`; the `for` loop returning at the first prefix whose size
passes `condition` is `List.find?`. -/
def formatUnits (v step : F64) (system : String) : F64 × String :=
  let condition : ℚ → Bool :=
    if F64.feq step F64.nan then
      fun size => F64.fge (F64.fabs v) (F64.fin size)
    else
      fun size => F64.fge (F64.fabs v) (F64.fin size) && F64.fge step (F64.fin size)
  match (unitSystems system).find? (fun p => condition (p.2 : ℚ)) with
  | some p =>
    let v2 := fdivConst v (p.2 : ℚ)
    let v2' :=
      if F64.flt (F64.fsub v2 (F64.ffloor v2)) (F64.fin formatEps) && F64.fgt v (F64.fin 1)
      then F64.ffloor v2 else v2
    (v2', p.1)
  | none =>
    let v' :=
      if F64.flt (F64.fsub v (F64.ffloor v)) (F64.fin formatEps) && F64.fgt v (F64.fin 1)
      then F64.ffloor v else v
    (v', "")

lemma find?_eq_none_of_false {α : Type} (l : List α) (c : α → Bool)
    (h : ∀ x, c x = false) : l.find? c = none := by
  induction l with
  | nil => rfl
  | cons x t ih => simp [List.find?, h x, ih]

/-- C9: the guard `step == math.NaN()` is false for every `step` (NaN compares
unequal to everything under Go `==`), so `formatUnits` always uses the
condition requiring both `|v| >= size` and `step >= size`; with `step = NaN`
that condition rejects every table size, so no unit is selected and the
returned unit string is empty (the value only undergoes the final flooring
adjustment). -/
theorem formatUnits_nan_step_spec :
    (∀ step : F64, F64.feq step F64.nan = false)
    ∧ ∀ (v : F64) (system : String),
        formatUnits v F64.nan system =
          (if F64.flt (F64.fsub v (F64.ffloor v)) (F64.fin formatEps)
                && F64.fgt v (F64.fin 1)
           then F64.ffloor v else v, "") := by
  constructor
  · intro step
    cases step <;> rfl
  · intro v system
    have hna : ∀ size : ℚ,
        (F64.fge (F64.fabs v) (F64.fin size) && F64.fge F64.nan (F64.fin size)) = false := by
      intro size
      cases F64.fge (F64.fabs v) (F64.fin size) <;> rfl
    unfold formatUnits
    rw [show F64.feq F64.nan F64.nan = false from rfl]
    simp only [Bool.false_eq_true, if_false]
    rw [find?_eq_none_of_false (unitSystems system)
      (fun p => F64.fge (F64.fabs v) (F64.fin (p.2 : ℚ))
        && F64.fge F64.nan (F64.fin (p.2 : ℚ)))
      (fun p => hna (p.2 : ℚ))]

/-! ## `memcachedCache.get` (cache.go:45-71)

The background goroutine and the `select` between the 50 ms timer and the
completion channel are modelled by an explicit race outcome: which `select`
arm fires.  The 50 ms wall-clock duration itself is not modelled; only the
branch behaviour on each outcome is. -/

/-- Which arm of the `select` at cache.go:59-64 fires. -/
inductive McOutcome where
  | timedOut
  | completed
deriving DecidableEq

/-- The external collaborators of `memcachedCache.get`: the `crypto/md5`
digest (a library function, kept abstract as the byte sequence it returns)
and the memcache client, where `none` models `client.Get` returning an error
and `some v` a successfully fetched item with `Value = v`. -/
structure MemcachedEnv where
  md5sum : String → List ℕ
  clientGet : String → Option String

/-- A lowercase hexadecimal digit, as produced by `fmt.Sprintf("%x", ...)`. -/
def hexDigitChar (n : ℕ) : Char :=
  if n < 10 then Char.ofNat (48 + n) else Char.ofNat (87 + n)

/-- `fmt.Sprintf("%x", b)` for a byte array: two lowercase hex digits per
byte (cache.go:46). -/
def bytesToHex (l : List ℕ) : String :=
  String.mk (l.flatMap (fun b => [hexDigitChar (b % 256 / 16), hexDigitChar (b % 16)]))

/-- `memcachedCache.get` (cache.go:45-71).  Returns
`(result, timeoutCounterIncremented, keyPassedToClient)`: `result = none` is
the `(nil, false)` miss.  On `timedOut` the function returns a miss and adds
1 to `Metrics.MemcacheTimeouts`; on completion, a client error is a miss and
otherwise the item's value is returned. -/
def memcachedCacheGet (env : MemcachedEnv) (race : McOutcome) (k : String) :
    Option String × Bool × String :=
  let hk := bytesToHex (env.md5sum k)
  match race with
  | McOutcome.timedOut => (none, true, hk)
  | McOutcome.completed =>
    match env.clientGet hk with
    | none => (none, false, hk)
    | some v => (some v, false, hk)

/-- C6: `memcachedCache.get` always hands the MD5 hex digest of the key (not
the raw key) to the memcache client; a client error or a lost race against
the deadline yields a miss, and exactly the deadline path increments the
`memcache_timeouts` counter. -/
theorem memcachedCache_get_spec (env : MemcachedEnv) (race : McOutcome) (k : String) :
    (memcachedCacheGet env race k).2.2 = bytesToHex (env.md5sum k)
    ∧ (race = McOutcome.timedOut →
        (memcachedCacheGet env race k).1 = none
        ∧ (memcachedCacheGet env race k).2.1 = true)
    ∧ (env.clientGet (bytesToHex (env.md5sum k)) = none →
        (memcachedCacheGet env race k).1 = none)
    ∧ (race = McOutcome.completed →
        (memcachedCacheGet env race k).2.1 = false) := by
  cases race with
  | timedOut =>
    refine ⟨rfl, fun _ => ⟨rfl, rfl⟩, fun _ => rfl, fun h => absurd h (by decide)⟩
  | completed =>
    cases henv : env.clientGet (bytesToHex (env.md5sum k)) with
    | none =>
      refine ⟨?_, ?_, ?_, ?_⟩
      · simp [memcachedCacheGet, henv]
      · intro h
        exact absurd h (by decide)
      · intro _
        simp [memcachedCacheGet, henv]
      · intro _
        simp [memcachedCacheGet, henv]
    | some v =>
      refine ⟨?_, ?_, ?_, ?_⟩
      · simp [memcachedCacheGet, henv]
      · intro h
        exact absurd h (by decide)
      · intro hn
        cases hn
      · intro _
        simp [memcachedCacheGet, henv]

/-- Witness for C6 with a concrete digest function and an erroring client. -/
theorem memcachedCache_get_spec_witness :
    (memcachedCacheGet ⟨fun _ => [171, 205], fun _ => none⟩
        McOutcome.timedOut "foo.bar").2.2 = bytesToHex [171, 205]
    ∧ (memcachedCacheGet ⟨fun _ => [171, 205], fun _ => none⟩
        McOutcome.timedOut "foo.bar").1 = none
    ∧ (memcachedCacheGet ⟨fun _ => [171, 205], fun _ => none⟩
        McOutcome.timedOut "foo.bar").2.1 = true := by
  have h := memcachedCache_get_spec ⟨fun _ => [171, 205], fun _ => none⟩
    McOutcome.timedOut "foo.bar"
  exact ⟨h.1, (h.2.1 rfl).1, (h.2.1 rfl).2⟩

/-! ## `findCompleter` (main.go:375-406)

Glob responses are the already-decoded protobuf messages (`GetMatches`,
`GetPath`, `GetIsLeaf` are plain field reads). -/

structure GlobMatch where
  Path : String
  IsLeaf : Bool
deriving DecidableEq

structure GlobResponse where
  Name : String
  Matches : List GlobMatch
deriving DecidableEq

/-- One entry of the completer reply (main.go:362-366); `IsLeaf` is the JSON
string field `is_leaf`. -/
structure Completer where
  Path : String
  Name : String
  IsLeaf : String
deriving DecidableEq

/-- `strings.LastIndex(s, ".")` on the character list: index of the last
`'.'`, `none` for Go's `-1`.  (`'.'` is a one-byte rune, so byte and rune
indexing agree on everything after it.) -/
def lastIndexDot : List Char → Option ℕ
  | [] => none
  | c :: t =>
    match lastIndexDot t with
    | some i => some (i + 1)
    | none => if c = '.' then some 0 else none

/-- The `i := strings.LastIndex(c.Path, "."); if i != -1 ...` block
(main.go:396-400): the `Name` field stays at its zero value `""` when the
path has no dot. -/
def nameOfPath (p : String) : String :=
  match lastIndexDot p.data with
  | none => ""
  | some i => String.mk (p.data.drop (i + 1))

/-- Specification-side description: the substring of the path after its
last `'.'`. -/
def lastComponent (p : String) : String :=
  String.mk ((p.data.reverse.takeWhile (fun c => c ≠ '.')).reverse)

/-- The loop of main.go:383-402 in match order. -/
def findCompleterEntries (ms : List GlobMatch) : List Completer :=
  ms.map (fun g =>
    { Path := g.Path
      Name := nameOfPath g.Path
      IsLeaf := if g.IsLeaf then "1" else "0" })

/-- JSON string-character escaping as `encoding/json` does it (HTML escaping
on, the default for `json.NewEncoder`). -/
def jsonEscapeChar (c : Char) : List Char :=
  if c = '"' then ['\\', '"']
  else if c = '\\' then ['\\', '\\']
  else if c = '\n' then ['\\', 'n']
  else if c = '\r' then ['\\', 'r']
  else if c = '\t' then ['\\', 't']
  else if c.toNat < 32 then
    ['\\', 'u', '0', '0', hexDigitChar (c.toNat / 16), hexDigitChar (c.toNat % 16)]
  else if c = '<' then ['\\', 'u', '0', '0', '3', 'c']
  else if c = '>' then ['\\', 'u', '0', '0', '3', 'e']
  else if c = '&' then ['\\', 'u', '0', '0', '2', '6']
  else if c.toNat = 0x2028 then ['\\', 'u', '2', '0', '2', '8']
  else if c.toNat = 0x2029 then ['\\', 'u', '2', '0', '2', '9']
  else [c]

def jsonString (s : String) : String :=
  "\"" ++ String.mk (s.data.flatMap jsonEscapeChar) ++ "\""

/-- JSON for one completer entry, fields in struct order with the declared
tags (main.go:369-373). -/
def completerJson (c : Completer) : String :=
  "\x7b" ++ jsonString "path" ++ ":" ++ jsonString c.Path
    ++ "," ++ jsonString "name" ++ ":" ++ jsonString c.Name
    ++ "," ++ jsonString "is_leaf" ++ ":" ++ jsonString c.IsLeaf ++ "\x7d"

/-- `findCompleter` (main.go:375-406): the wrapper object with the `metrics`
array (an empty slice encodes as `[]`), trailing newline from
`json.Encoder.Encode`.  Encoding cannot fail for these structs, so the `err`
result is omitted. -/
def findCompleter (globs : GlobResponse) : String :=
  "\x7b" ++ jsonString "metrics" ++ ":["
    ++ String.intercalate "," ((findCompleterEntries globs.Matches).map completerJson)
    ++ "]\x7d\n"

lemma drop_append_le {α : Type} (l₁ : List α) :
    ∀ (l₂ : List α) (n : ℕ), n ≤ l₁.length → (l₁ ++ l₂).drop n = l₁.drop n ++ l₂ := by
  induction l₁ with
  | nil =>
    intro l₂ n hn
    have : n = 0 := by simpa using hn
    simp [this]
  | cons a t ih =>
    intro l₂ n hn
    cases n with
    | zero => simp
    | succ m =>
      simp only [List.cons_append, List.drop_succ_cons]
      exact ih l₂ m (by simpa using hn)

lemma lastIndexDot_cons (a : Char) (l : List Char) :
    lastIndexDot (a :: l) =
      match lastIndexDot l with
      | some i => some (i + 1)
      | none => if a = '.' then some 0 else none := rfl

lemma lastIndexDot_concat (xs : List Char) (c : Char) :
    lastIndexDot (xs ++ [c]) = if c = '.' then some xs.length else lastIndexDot xs := by
  induction xs with
  | nil =>
    simp [lastIndexDot]
  | cons a t ih =>
    rw [List.cons_append, lastIndexDot_cons, ih]
    by_cases hc : c = '.'
    · rw [if_pos hc, if_pos hc]
      simp
    · rw [if_neg hc, if_neg hc, lastIndexDot_cons]

lemma lastIndexDot_lt (l : List Char) : ∀ i, lastIndexDot l = some i → i < l.length := by
  induction l with
  | nil =>
    intro i h
    cases h
  | cons a t ih =>
    intro i h
    cases ht : lastIndexDot t with
    | some j =>
      rw [lastIndexDot, ht] at h
      injection h with h'
      have := ih j ht
      simp only [List.length_cons]
      omega
    | none =>
      rw [lastIndexDot, ht] at h
      by_cases ha : a = '.'
      · rw [if_pos ha] at h
        injection h with h'
        simp [← h']
      · rw [if_neg ha] at h
        cases h

lemma lastIndexDot_none_not_mem (l : List Char) (h : lastIndexDot l = none) :
    '.' ∉ l := by
  induction l with
  | nil => simp
  | cons a t ih =>
    intro hmem
    cases ht : lastIndexDot t with
    | some j => rw [lastIndexDot, ht] at h; cases h
    | none =>
      rw [lastIndexDot, ht] at h
      by_cases ha : a = '.'
      · rw [if_pos ha] at h; cases h
      · rcases List.mem_cons.mp hmem with h1 | h1
        · exact ha h1.symm
        · exact ih ht h1

lemma drop_lastIndexDot (l : List Char) :
    ∀ i, lastIndexDot l = some i →
      l.drop (i + 1) = (l.reverse.takeWhile (fun c => c ≠ '.')).reverse := by
  induction l using List.reverseRecOn with
  | nil =>
    intro i h
    cases h
  | append_singleton xs c ih =>
    intro i h
    rw [lastIndexDot_concat] at h
    by_cases hc : c = '.'
    · rw [if_pos hc] at h
      injection h with h'
      subst h'
      subst hc
      rw [List.drop_eq_nil_of_le (by simp)]
      rw [List.reverse_append]
      simp
    · rw [if_neg hc] at h
      have hi := lastIndexDot_lt xs i h
      rw [drop_append_le xs [c] (i + 1) (by omega), ih i h, List.reverse_append]
      simp only [List.reverse_cons, List.reverse_nil, List.nil_append,
        List.singleton_append]
      rw [List.takeWhile_cons_of_pos (by simp [hc])]
      simp

lemma nameOfPath_eq_lastComponent (p : String) (h : '.' ∈ p.data) :
    nameOfPath p = lastComponent p := by
  unfold nameOfPath lastComponent
  cases hL : lastIndexDot p.data with
  | none => exact absurd h (lastIndexDot_none_not_mem _ hL)
  | some i =>
    show String.mk (p.data.drop (i + 1))
      = String.mk ((p.data.reverse.takeWhile (fun c => c ≠ '.')).reverse)
    rw [drop_lastIndexDot p.data i hL]

/-- C7: `findCompleter` emits one entry per glob match, in order, with
`path` the match's path, `is_leaf` the string `"1"`/`"0"` by leaf-ness, and
`name` the part of the path after its last dot (whenever the path contains a
dot; a dotless path gets the zero value `""`). -/
theorem findCompleter_entries_spec (globs : GlobResponse) :
    (findCompleterEntries globs.Matches).length = globs.Matches.length
    ∧ ∀ (i : ℕ) (g : GlobMatch), globs.Matches[i]? = some g →
        (findCompleterEntries globs.Matches)[i]? = some
          { Path := g.Path
            Name := nameOfPath g.Path
            IsLeaf := if g.IsLeaf then "1" else "0" }
        ∧ ('.' ∈ g.Path.data → nameOfPath g.Path = lastComponent g.Path) := by
  constructor
  · simp [findCompleterEntries]
  · intro i g hg
    constructor
    · simp [findCompleterEntries, hg]
    · intro hdot
      exact nameOfPath_eq_lastComponent g.Path hdot

/-- Witness for C7: the spec's own completer example, including the exact
encoded JSON. -/
theorem findCompleter_entries_spec_witness :
    findCompleter ⟨"a.*", [⟨"a.b", true⟩, ⟨"a.c", false⟩]⟩
      = "\x7b\"metrics\":[\x7b\"path\":\"a.b\",\"name\":\"b\",\"is_leaf\":\"1\"\x7d,\x7b\"path\":\"a.c\",\"name\":\"c\",\"is_leaf\":\"0\"\x7d]\x7d\n"
    ∧ (findCompleterEntries [⟨"a.b", true⟩, ⟨"a.c", false⟩])[0]? = some ⟨"a.b", "b", "1"⟩
    ∧ (findCompleterEntries [⟨"a.b", true⟩, ⟨"a.c", false⟩])[1]? = some ⟨"a.c", "c", "0"⟩ := by
  have h := findCompleter_entries_spec ⟨"a.*", [⟨"a.b", true⟩, ⟨"a.c", false⟩]⟩
  have h0 := (h.2 0 ⟨"a.b", true⟩ (by decide)).1
  have h1 := (h.2 1 ⟨"a.c", false⟩ (by decide)).1
  refine ⟨by decide, ?_, ?_⟩
  · rw [h0]
    decide
  · rw [h1]
    decide

/-! ## Cache-key construction (main.go:183-194)

`r.Form` is `url.Values`: the parsed query parameters.  It is modelled by the
ordered list of `(key, value)` pairs of the query string; `url.Values` keeps,
per key, the values in order of appearance, and `Encode` walks the keys in
sorted order (`sort.Strings`) emitting `escape(k)=escape(v)` pairs joined by
`&`.  `QueryEscape` keeps ASCII alphanumerics and `-._~`, turns a space into
`+`, and percent-encodes every other byte of the UTF-8 encoding with
uppercase hex. -/

/-- An uppercase hexadecimal digit, as `net/url` emits in `%XX`. -/
def upperHexDigit (n : ℕ) : Char :=
  if n < 10 then Char.ofNat (48 + n) else Char.ofNat (55 + n)

/-- UTF-8 encoding of one code point (Go strings are byte slices; escaping is
per byte). -/
def utf8Bytes (c : Char) : List ℕ :=
  let n := c.toNat
  if n < 128 then [n]
  else if n < 2048 then [192 + n / 64, 128 + n % 64]
  else if n < 65536 then [224 + n / 4096, 128 + n / 64 % 64, 128 + n % 64]
  else [240 + n / 262144, 128 + n / 4096 % 64, 128 + n / 64 % 64, 128 + n % 64]

/-- The bytes `url.QueryEscape` leaves unescaped. -/
def isUnreserved (b : ℕ) : Bool :=
  (48 ≤ b && b ≤ 57) || (65 ≤ b && b ≤ 90) || (97 ≤ b && b ≤ 122)
    || b == 45 || b == 95 || b == 46 || b == 126

def queryEscapeByte (b : ℕ) : List Char :=
  if isUnreserved b then [Char.ofNat b]
  else if b == 32 then ['+']
  else ['%', upperHexDigit (b / 16 % 16), upperHexDigit (b % 16)]

/-- `url.QueryEscape`. -/
def queryEscape (s : String) : String :=
  String.mk ((s.data.flatMap utf8Bytes).flatMap queryEscapeByte)

/-- The values of key `k`, in order of appearance (`url.Values[k]`). -/
def valuesOf (q : List (String × String)) (k : String) : List String :=
  (q.filter (fun p => p.1 = k)).map Prod.snd

/-- The distinct keys in sorted order (`sort.Strings` over the map keys of
`url.Values`; byte-wise order and code-point order agree for UTF-8). -/
def sortedKeys (q : List (String × String)) : List String :=
  List.insertionSort (· ≤ ·) ((q.map Prod.fst).dedup)

/-- `url.Values.Encode`. -/
def urlValuesEncode (q : List (String × String)) : String :=
  String.intercalate "&"
    ((sortedKeys q).flatMap (fun k =>
      (valuesOf q k).map (fun v => queryEscape k ++ "=" ++ queryEscape v)))

/-- The parameters deleted before encoding (main.go:184-192). -/
def cacheBusters : List String := ["noCache", "jsonp", "_salt", "_ts", "_t"]

/-- The four `r.Form.Del` calls of main.go:184-192. -/
def strippedForm (q : List (String × String)) : List (String × String) :=
  q.filter (fun p => !(cacheBusters.contains p.1))

/-- `cacheKey := r.Form.Encode()` after the deletions (main.go:194). -/
def cacheKeyOf (q : List (String × String)) : String :=
  urlValuesEncode (strippedForm q)

lemma mem_dedup_keys_iff (q : List (String × String)) (k : String) :
    k ∈ (q.map Prod.fst).dedup ↔ valuesOf q k ≠ [] := by
  rw [List.mem_dedup, List.mem_map]
  constructor
  · rintro ⟨p, hp, rfl⟩
    have hmem : p.2 ∈ valuesOf q p.1 := by
      refine List.mem_map_of_mem _ (List.mem_filter.mpr ⟨hp, by simp⟩)
    exact List.ne_nil_of_mem hmem
  · intro h
    obtain ⟨v, hv⟩ := List.exists_mem_of_ne_nil _ h
    obtain ⟨p, hp, rfl⟩ := List.mem_map.mp hv
    have := List.mem_filter.mp hp
    exact ⟨p, this.1, by simpa using this.2⟩

lemma sortedKeys_ext (q1 q2 : List (String × String))
    (h : ∀ k, valuesOf q1 k = valuesOf q2 k) :
    sortedKeys q1 = sortedKeys q2 := by
  apply List.eq_of_perm_of_sorted ?_ (List.sorted_insertionSort _ _)
    (List.sorted_insertionSort _ _)
  refine ((List.perm_insertionSort _ _).trans ?_).trans
    (List.perm_insertionSort _ _).symm
  refine (List.perm_ext_iff_of_nodup (List.nodup_dedup _) (List.nodup_dedup _)).mpr ?_
  intro k
  rw [mem_dedup_keys_iff, mem_dedup_keys_iff, h k]

/-- C2 (amended): the cache key is unchanged by any rewriting of the query
that preserves, for every key, the sequence of that key's values among the
parameters not stripped — in particular by reordering parameters with
distinct keys and by adding, removing or changing `noCache`, `jsonp`,
`_salt`, `_ts`, `_t`. -/
theorem cacheKey_canonical (q1 q2 : List (String × String))
    (h : ∀ k, valuesOf (strippedForm q1) k = valuesOf (strippedForm q2) k) :
    cacheKeyOf q1 = cacheKeyOf q2 := by
  unfold cacheKeyOf urlValuesEncode
  rw [sortedKeys_ext _ _ h]
  have hf : (fun k => (valuesOf (strippedForm q1) k).map
        (fun v => queryEscape k ++ "=" ++ queryEscape v))
      = (fun k => (valuesOf (strippedForm q2) k).map
        (fun v => queryEscape k ++ "=" ++ queryEscape v)) := by
    funext k
    rw [h k]
  rw [hf]

/-- C2 counterexample: two query strings that differ only in the order of
their (repeated-key) parameters produce different cache keys, because
`url.Values` keeps per-key value order and `Encode` preserves it. -/
theorem cacheKey_perm_counterexample :
    (strippedForm [("target", "a"), ("target", "b")]).Perm
        (strippedForm [("target", "b"), ("target", "a")])
    ∧ cacheKeyOf [("target", "a"), ("target", "b")]
        ≠ cacheKeyOf [("target", "b"), ("target", "a")] := by
  constructor
  · decide
  · decide

/-- Witness for the amended C2: a `noCache` parameter does not change the
key. -/
theorem cacheKey_canonical_witness :
    cacheKeyOf [("a", "1"), ("noCache", "1")] = cacheKeyOf [("a", "1")] :=
  cacheKey_canonical _ _ (fun _ => rfl)

/-! ## `renderHandler` (main.go:130-328)

The handler is modelled from the cache lookup to the final `queryCache.set`.
External collaborators that live outside the provided sources are inputs of
the model: the parser (`parseOk`/`metricsOf` stand for `parseExpr` and
`expr.metrics()`, universally quantified), the evaluator (`evalOf` for
`evalExpr`), the encoders (`marshal`), and `dateParamToEpoch` (its two
outputs `from32`, `until32` are taken directly).  `Zipper.Find` may fail
(main.go:251-254), `glob.Marshal` may fail (255-258), individual Renders may
fail and drop their series (277-283), and the find cache is any `bytesCache`
(cache.go): whether a store made by this request is visible to its later
lookups is per-key behaviour (`retains`) — always for the in-memory
expireCache, never for nullCache, either for memcached — and pre-request
entries may hold bytes that fail to unmarshal (main.go:242-243).  The
goroutine fan-out of Renders is serialised: the channel collects exactly the
leaves of the Find response. -/

/-- `metricRequest` (a fetch key): `(metric, from, until)`.  The struct lives
in the repository's expr.go; fields are from spec §3 (`from`/`until` renamed,
`from` being reserved). -/
structure MetricRequest where
  metric : String
  fromTime : ℤ
  untilTime : ℤ
deriving DecidableEq

/-- Modelled from the spec: `truthyBool` (used at main.go:144,153) is defined
outside the provided sources; spec §4.8: "Truthy values: `1`, `true`, `True`,
and similar." -/
def truthyBool (s : String) : Bool :=
  s == "1" || s == "true" || s == "True"

/-- `r.FormValue(k)`: first value of the key, `""` when absent. -/
def formValue (form : List (String × String)) (k : String) : String :=
  ((form.find? (fun p => p.1 = k)).map Prod.snd).getD ""

/-- `useCache := truthyBool(r.FormValue("noCache")) == false` (main.go:144). -/
def useCacheOf (form : List (String × String)) : Bool :=
  ! truthyBool (formValue form "noCache")

def isDigitChar (c : Char) : Bool :=
  48 ≤ c.toNat && c.toNat ≤ 57

def digitsVal (l : List Char) : ℕ :=
  l.foldl (fun a c => a * 10 + (c.toNat - 48)) 0

/-- `strconv.Atoi` (Go stdlib, 64-bit): optional sign, at least one digit,
error outside the int64 range. -/
def atoi (s : String) : Option ℤ :=
  let p : ℤ × List Char :=
    match s.data with
    | '+' :: t => (1, t)
    | '-' :: t => (-1, t)
    | t => (1, t)
  if p.2.isEmpty || !(p.2.all isDigitChar) then none
  else
    let v : ℤ := p.1 * digitsVal p.2
    if -9223372036854775808 ≤ v ∧ v ≤ 9223372036854775807 then some v else none

/-- Go's `int32(t)` conversion: two's-complement wrap-around. -/
def toInt32 (t : ℤ) : ℤ :=
  (t + 2147483648) % 4294967296 - 2147483648

/-- main.go:161-170: default 60, overridden by a `cacheTimeout` parameter
that `strconv.Atoi` accepts (converted to int32). -/
def cacheTimeoutOf (form : List (String × String)) : ℤ :=
  let tstr := formValue form "cacheTimeout"
  if tstr = "" then 60
  else
    match atoi tstr with
    | none => 60
    | some t => toInt32 t

/-- main.go:172-181: default 0, overridden by `maxDataPoints`. -/
def maxDataPointsOf (form : List (String × String)) : ℤ :=
  let mstr := formValue form "maxDataPoints"
  if mstr = "" then 0
  else
    match atoi mstr with
    | none => 0
    | some m => toInt32 m

/-- main.go:147-159: `format`, with the `rawData`/`rawdata` and `png`
defaults. -/
def formatOf (form : List (String × String)) : String :=
  let f := formValue form "format"
  let f1 :=
    if f = "" && (truthyBool (formValue form "rawData")
        || truthyBool (formValue form "rawdata"))
    then "raw" else f
  if f1 = "" then "png" else f1

/-- `r.Form["target"]` (main.go:140): all values of `target`, in order. -/
def targetsOf (form : List (String × String)) : List String :=
  (form.filter (fun p => p.1 = "target")).map Prod.snd

/-- Lookup in an association list whose newest entries come first (a `set`
prepends, modelling overwrite of the single value per key). -/
def assocGet {α : Type} (l : List (String × α)) (k : String) : Option α :=
  (l.find? (fun p => p.1 = k)).map Prod.snd

/-- One iteration of the `for _, m := range exp.metrics()` loop
(main.go:226-292) for an (already shifted) `MetricRequest`: `didFind` records
whether a `Zipper.Find` was issued, `renders` the `Zipper.Render` calls
`(path, from, until)` fanned out for the leaf matches. -/
structure FetchStep where
  mfetch : MetricRequest
  didFind : Bool
  renders : List (String × ℤ × ℤ)
deriving DecidableEq

/-- The per-request mutable state of the fetch loop.  A find-cache entry
`(g, some r)` holds bytes that unmarshal to `r`; `(g, none)` holds bytes
that fail to unmarshal (possible among the pre-request contents). -/
structure FetchState where
  metricMap : List (MetricRequest × List String)
  findCache : List (String × Option GlobResponse)
  steps : List FetchStep
deriving DecidableEq

/-- The abstracted inputs of one `/render` request (see the section header):
`zipperFind g = none` is a `Zipper.Find` error; `marshalOk g` is whether
`glob.Marshal()` succeeds for the response Found for `g`; `retains g` is
whether the bytes cache makes this request's `findCache.set` for `g` visible
to its later lookups; `renderOk p from until` is whether
`Zipper.Render(p, from, until)` succeeds. -/
structure RenderConfig where
  form : List (String × String)
  queryCache : String → Option String
  findCache0 : List (String × Option GlobResponse)
  zipperFind : String → Option GlobResponse
  marshalOk : String → Bool
  retains : String → Bool
  renderOk : String → ℤ → ℤ → Bool
  metricsOf : String → List MetricRequest
  parseOk : String → Bool
  evalOf : String → List String
  marshal : String → List String → String
  from32 : ℤ
  until32 : ℤ

/-- The `haveCacheData` computation (main.go:237-244): `findCache.get`
against the contents this request can see for `g`, followed by
`glob.Unmarshal` — a miss or an unmarshal failure both leave no cache
data. -/
def cachedData (cfg : RenderConfig) (fc : List (String × Option GlobResponse))
    (g : String) : Option GlobResponse :=
  match assocGet (if cfg.retains g then fc else cfg.findCache0) g with
  | some (some r) => some r
  | _ => none

/-- main.go:226-292 for one `mfetch`:
skip if already in `metricMap`; when `useCache`, consult the find cache,
treating an unmarshal failure as no cache data (239-244); without cache data
call `Zipper.Find` — on error log and `continue`, with nothing fetched,
cached or recorded (251-254) — and `findCache.set` the response only when
`glob.Marshal()` succeeds (255-258); Render every leaf match, dropping the
series of failed Renders (270-290); append the collected series to
`metricMap[mfetch]`, whose key therefore stays absent when no leaf yields a
series. -/
def processMetric (cfg : RenderConfig) (useCache : Bool)
    (st : FetchState) (m : MetricRequest) : FetchState :=
  if (st.metricMap.find? (fun p => p.1 = m)).isSome then st
  else
    match (if useCache then cachedData cfg st.findCache m.metric else none) with
    | some glob =>
      let leaves := glob.Matches.filter (fun g => g.IsLeaf)
      let results := (leaves.filter
        (fun g => cfg.renderOk g.Path m.fromTime m.untilTime)).map (fun g => g.Path)
      { metricMap :=
          if results.isEmpty then st.metricMap
          else st.metricMap ++ [(m, results)]
        findCache := st.findCache
        steps := st.steps ++
          [⟨m, false, leaves.map (fun g => (g.Path, m.fromTime, m.untilTime))⟩] }
    | none =>
      match cfg.zipperFind m.metric with
      | none =>
        { metricMap := st.metricMap
          findCache := st.findCache
          steps := st.steps ++ [⟨m, true, []⟩] }
      | some glob =>
        let leaves := glob.Matches.filter (fun g => g.IsLeaf)
        let results := (leaves.filter
          (fun g => cfg.renderOk g.Path m.fromTime m.untilTime)).map (fun g => g.Path)
        { metricMap :=
            if results.isEmpty then st.metricMap
            else st.metricMap ++ [(m, results)]
          findCache :=
            if cfg.marshalOk m.metric then (m.metric, some glob) :: st.findCache
            else st.findCache
          steps := st.steps ++
            [⟨m, true, leaves.map (fun g => (g.Path, m.fromTime, m.untilTime))⟩] }

/-- `mfetch.from += from32; mfetch.until += until32` (main.go:228-231). -/
def shiftRequest (cfg : RenderConfig) (m : MetricRequest) : MetricRequest :=
  { m with fromTime := m.fromTime + cfg.from32, untilTime := m.untilTime + cfg.until32 }

/-- The `for _, target := range targets` loop (main.go:214-313): wrap the
target in `maxDataPoints(...)` when requested, 400 on parse failure
(returning the offending target), fetch the target's metrics, evaluate and
accumulate.  Result: final fetch state, accumulated series, and the failing
target if any. -/
def runTargets (cfg : RenderConfig) (useCache : Bool) (mdp : ℤ) :
    List String → FetchState → List String →
      FetchState × List String × Option String
  | [], st, results => (st, results, none)
  | t :: rest, st, results =>
    let tgt :=
      if 0 < mdp then "maxDataPoints(" ++ t ++ ", " ++ toString mdp ++ ")" else t
    if cfg.parseOk tgt then
      let st' := ((cfg.metricsOf tgt).map (shiftRequest cfg)).foldl
        (processMetric cfg useCache) st
      runTargets cfg useCache mdp rest st' (results ++ cfg.evalOf tgt)
    else (st, results, some tgt)

/-- The fetch phase of one request, from the empty `metricMap` and the
persistent find cache. -/
def renderFetch (cfg : RenderConfig) :
    FetchState × List String × Option String :=
  runTargets cfg (useCacheOf cfg.form) (maxDataPointsOf cfg.form)
    (targetsOf cfg.form) ⟨[], cfg.findCache0, []⟩ []

/-- How the handler terminated: `cachedHit` and `done` write a 200 body,
`emptyRange` is the 400 "Invalid empty time range", `parseError` the 400
parse message for the named target. -/
inductive RenderOutcome where
  | cachedHit (body : String)
  | emptyRange
  | parseError (target : String)
  | done (body : String)
deriving DecidableEq

/-- Observable result of a `/render` request: outcome, the fetch trace, the
final `metricMap`, the evaluated series, and the `queryCache.set` call (key,
body, TTL) if one was made. -/
structure RenderResult where
  outcome : RenderOutcome
  steps : List FetchStep
  metricMap : List (MetricRequest × List String)
  results : List String
  querySet : Option (String × String × ℤ)
deriving DecidableEq

/-- `renderHandler` (main.go:130-328): cache-key normalisation and lookup,
the `from32 == until32` guard, the per-target fetch/eval loop, encoding, and
the conditional `queryCache.set` (main.go:326-328). -/
def renderHandler (cfg : RenderConfig) : RenderResult :=
  match (if useCacheOf cfg.form then cfg.queryCache (cacheKeyOf cfg.form) else none) with
  | some response => ⟨RenderOutcome.cachedHit response, [], [], [], none⟩
  | none =>
    if cfg.from32 = cfg.until32 then ⟨RenderOutcome.emptyRange, [], [], [], none⟩
    else
      let r := renderFetch cfg
      match r.2.2 with
      | some t => ⟨RenderOutcome.parseError t, r.1.steps, r.1.metricMap, r.2.1, none⟩
      | none =>
        let body := cfg.marshal (formatOf cfg.form) r.2.1
        ⟨RenderOutcome.done body, r.1.steps, r.1.metricMap, r.2.1,
          if r.2.1.length ≠ 0
          then some (cacheKeyOf cfg.form, body, cacheTimeoutOf cfg.form)
          else none⟩

/-- The `Zipper.Find` calls of a trace, in order. -/
def findCalls (steps : List FetchStep) : List String :=
  steps.flatMap (fun s => if s.didFind then [s.mfetch.metric] else [])

/-- The `Zipper.Render` calls of a trace, in order. -/
def renderCalls (steps : List FetchStep) : List (String × ℤ × ℤ) :=
  steps.flatMap FetchStep.renders

/-! ### Invariants of the fetch loop -/

lemma assocGet_cons {α : Type} (k : String) (v : α) (l : List (String × α))
    (g : String) :
    assocGet ((k, v) :: l) g = if k = g then some v else assocGet l g := by
  by_cases h : k = g <;> simp [assocGet, List.find?_cons, h]

lemma findCalls_append_one (steps : List FetchStep) (s : FetchStep) :
    findCalls (steps ++ [s]) =
      findCalls steps ++ (if s.didFind then [s.mfetch.metric] else []) := by
  simp [findCalls]

lemma keys_nodup_append_single (mm : List (MetricRequest × List String))
    (m : MetricRequest) (v : List String)
    (h : (mm.map Prod.fst).Nodup) (hnot : m ∉ mm.map Prod.fst) :
    (((mm ++ [(m, v)]).map Prod.fst)).Nodup := by
  rw [List.map_append]
  simp [List.nodup_append, h, hnot]

lemma keys_nodup_update (mm : List (MetricRequest × List String))
    (m : MetricRequest) (v : List String)
    (h : (mm.map Prod.fst).Nodup) (hnot : m ∉ mm.map Prod.fst) :
    ((if v.isEmpty then mm else mm ++ [(m, v)]).map Prod.fst).Nodup := by
  by_cases hv : v.isEmpty
  · simpa [hv] using h
  · simpa [hv] using keys_nodup_append_single mm m v h hnot

lemma not_mem_keys_of_find?_none (mm : List (MetricRequest × List String))
    (m : MetricRequest) (hmem : ¬(mm.find? (fun p => p.1 = m)).isSome = true) :
    m ∉ mm.map Prod.fst := by
  intro hin
  obtain ⟨p, hp, hpe⟩ := List.mem_map.mp hin
  have hn := List.find?_eq_none.mp (Option.not_isSome_iff_eq_none.mp hmem) p hp
  simp [hpe] at hn

lemma processMetric_keys_nodup (cfg : RenderConfig) (u : Bool)
    (st : FetchState) (m : MetricRequest)
    (h : (st.metricMap.map Prod.fst).Nodup) :
    (((processMetric cfg u st m).metricMap).map Prod.fst).Nodup := by
  unfold processMetric
  by_cases hmem : (st.metricMap.find? (fun p => p.1 = m)).isSome = true
  · rw [if_pos hmem]
    exact h
  · rw [if_neg hmem]
    have hnot := not_mem_keys_of_find?_none st.metricMap m hmem
    cases hcached : (if u then cachedData cfg st.findCache m.metric else none) with
    | some glob => exact keys_nodup_update st.metricMap m _ h hnot
    | none =>
      cases hf : cfg.zipperFind m.metric with
      | none => exact h
      | some glob => exact keys_nodup_update st.metricMap m _ h hnot

/-- Invariant behind "at most one Find per glob when the cache is usable":
every glob already Found has a decodable, visible cache entry, and no glob
has been Found twice. -/
def FindInv (cfg : RenderConfig) (st : FetchState) : Prop :=
  ∀ g, (cachedData cfg st.findCache g = none → (findCalls st.steps).count g = 0)
    ∧ (findCalls st.steps).count g ≤ 1

lemma cachedData_cons_ne (cfg : RenderConfig) (k : String) (v : Option GlobResponse)
    (fc : List (String × Option GlobResponse)) (g : String) (hne : ¬ k = g) :
    cachedData cfg ((k, v) :: fc) g = cachedData cfg fc g := by
  unfold cachedData
  by_cases hr : cfg.retains g = true
  · rw [if_pos hr, if_pos hr, assocGet_cons, if_neg hne]
  · rw [if_neg hr, if_neg hr]

lemma cachedData_cons_self (cfg : RenderConfig) (k : String) (r : GlobResponse)
    (fc : List (String × Option GlobResponse)) (hrt : cfg.retains k = true) :
    cachedData cfg ((k, some r) :: fc) k = some r := by
  unfold cachedData
  rw [if_pos hrt, assocGet_cons, if_pos rfl]

lemma processMetric_findInv (cfg : RenderConfig)
    (hzf : ∀ g, (cfg.zipperFind g).isSome = true)
    (hmk : ∀ g, cfg.marshalOk g = true)
    (hrt : ∀ g, cfg.retains g = true)
    (st : FetchState) (m : MetricRequest) (h : FindInv cfg st) :
    FindInv cfg (processMetric cfg true st m) := by
  unfold processMetric
  by_cases hmem : (st.metricMap.find? (fun p => p.1 = m)).isSome = true
  · rw [if_pos hmem]
    exact h
  · rw [if_neg hmem]
    cases hcached : (if true then cachedData cfg st.findCache m.metric else none) with
    | some glob =>
      intro g
      refine ⟨?_, ?_⟩
      · intro hnone
        simp only [findCalls_append_one]
        simpa using (h g).1 hnone
      · simp only [findCalls_append_one]
        simpa using (h g).2
    | none =>
      have hcnone : cachedData cfg st.findCache m.metric = none := by
        simpa using hcached
      cases hf : cfg.zipperFind m.metric with
      | none =>
        have hx := hzf m.metric
        rw [hf] at hx
        simp at hx
      | some glob =>
        rw [hmk m.metric]
        intro g
        by_cases hgm : g = m.metric
        · subst hgm
          refine ⟨?_, ?_⟩
          · intro hnone
            have hnone' : cachedData cfg ((m.metric, some glob) :: st.findCache)
                m.metric = none := hnone
            rw [cachedData_cons_self cfg m.metric glob st.findCache (hrt m.metric)]
              at hnone'
            simp at hnone'
          · have h0 := (h m.metric).1 hcnone
            simp only [findCalls_append_one]
            simp [List.count_append, h0]
        · refine ⟨?_, ?_⟩
          · intro hnone
            have hnone' : cachedData cfg ((m.metric, some glob) :: st.findCache)
                g = none := hnone
            rw [cachedData_cons_ne cfg m.metric (some glob) st.findCache g
              (fun hh => hgm hh.symm)] at hnone'
            have h0 := (h g).1 hnone'
            simp only [findCalls_append_one]
            simp [List.count_append, h0, hgm]
          · have h1 := (h g).2
            simp only [findCalls_append_one, List.count_append]
            have hz0 : List.count g [m.metric] = 0 := by
              simp [List.count_singleton, hgm]
            simpa [hz0] using h1

/-- Invariant behind "one Render per leaf per processing step": every
decodable find-cache entry has distinct match paths, and every step so far
issued distinct Render keys. -/
def RendersInv (st : FetchState) : Prop :=
  (∀ g r, assocGet st.findCache g = some (some r) →
    (r.Matches.map GlobMatch.Path).Nodup)
  ∧ ∀ s ∈ st.steps, s.renders.Nodup

lemma renders_nodup_of_matches (glob : GlobResponse) (f u : ℤ)
    (h : (glob.Matches.map GlobMatch.Path).Nodup) :
    ((glob.Matches.filter (fun g => g.IsLeaf)).map
      (fun g => (g.Path, f, u))).Nodup := by
  have hsub : ((glob.Matches.filter (fun g => g.IsLeaf)).map GlobMatch.Path).Sublist
      (glob.Matches.map GlobMatch.Path) :=
    (List.filter_sublist _).map _
  have hnd : ((glob.Matches.filter (fun g => g.IsLeaf)).map GlobMatch.Path).Nodup :=
    h.sublist hsub
  have hcomp : (fun g : GlobMatch => (g.Path, f, u))
      = (fun p : String => (p, f, u)) ∘ GlobMatch.Path := rfl
  rw [hcomp, ← List.map_map]
  refine hnd.map ?_
  intro a b hab
  simpa using congrArg Prod.fst hab

lemma cachedData_some_cases (cfg : RenderConfig)
    (fc : List (String × Option GlobResponse)) (g : String) (r : GlobResponse)
    (h : cachedData cfg fc g = some r) :
    assocGet fc g = some (some r) ∨ assocGet cfg.findCache0 g = some (some r) := by
  unfold cachedData at h
  by_cases hr : cfg.retains g = true
  · rw [if_pos hr] at h
    left
    cases hget : assocGet fc g with
    | none =>
      rw [hget] at h
      simp at h
    | some e =>
      cases e with
      | none =>
        rw [hget] at h
        simp at h
      | some rr =>
        rw [hget] at h
        simp at h
        subst h
        rfl
  · rw [if_neg hr] at h
    right
    cases hget : assocGet cfg.findCache0 g with
    | none =>
      rw [hget] at h
      simp at h
    | some e =>
      cases e with
      | none =>
        rw [hget] at h
        simp at h
      | some rr =>
        rw [hget] at h
        simp at h
        subst h
        rfl

lemma processMetric_rendersInv (cfg : RenderConfig) (u : Bool)
    (st : FetchState) (m : MetricRequest)
    (hz : ∀ g r, cfg.zipperFind g = some r → (r.Matches.map GlobMatch.Path).Nodup)
    (hc0 : ∀ g r, assocGet cfg.findCache0 g = some (some r) →
      (r.Matches.map GlobMatch.Path).Nodup)
    (h : RendersInv st) :
    RendersInv (processMetric cfg u st m) := by
  unfold processMetric
  by_cases hmem : (st.metricMap.find? (fun p => p.1 = m)).isSome = true
  · rw [if_pos hmem]
    exact h
  · rw [if_neg hmem]
    cases hcached : (if u then cachedData cfg st.findCache m.metric else none) with
    | some glob =>
      have hget : cachedData cfg st.findCache m.metric = some glob := by
        by_cases hu : u = true
        · simpa [hu] using hcached
        · simp [hu] at hcached
      have hglob : (glob.Matches.map GlobMatch.Path).Nodup := by
        rcases cachedData_some_cases cfg st.findCache m.metric glob hget with hc | hc
        · exact h.1 m.metric glob hc
        · exact hc0 m.metric glob hc
      refine ⟨h.1, ?_⟩
      intro s hs
      simp only [List.mem_append, List.mem_singleton] at hs
      rcases hs with hs | hs
      · exact h.2 s hs
      · subst hs
        exact renders_nodup_of_matches glob m.fromTime m.untilTime hglob
    | none =>
      cases hf : cfg.zipperFind m.metric with
      | none =>
        refine ⟨h.1, ?_⟩
        intro s hs
        simp only [List.mem_append, List.mem_singleton] at hs
        rcases hs with hs | hs
        · exact h.2 s hs
        · subst hs
          simp
      | some glob =>
        have hsteps : ∀ s ∈ st.steps ++
            ([⟨m, true, (glob.Matches.filter (fun g => g.IsLeaf)).map
              (fun g => (g.Path, m.fromTime, m.untilTime))⟩] : List FetchStep),
            s.renders.Nodup := by
          intro s hs
          simp only [List.mem_append, List.mem_singleton] at hs
          rcases hs with hs | hs
          · exact h.2 s hs
          · subst hs
            exact renders_nodup_of_matches glob m.fromTime m.untilTime
              (hz m.metric glob hf)
        by_cases hmo : cfg.marshalOk m.metric = true
        · rw [hmo]
          refine ⟨?_, hsteps⟩
          intro g r hget
          have hget' : assocGet ((m.metric, some glob) :: st.findCache) g
              = some (some r) := hget
          rw [assocGet_cons] at hget'
          by_cases hgm : m.metric = g
          · rw [if_pos hgm] at hget'
            have hr : glob = r := by
              simpa using hget'
            rw [← hr]
            exact hz m.metric glob hf
          · rw [if_neg hgm] at hget'
            exact h.1 g r hget'
        · have hmo' : cfg.marshalOk m.metric = false := by
            simpa using hmo
          rw [hmo']
          exact ⟨h.1, hsteps⟩

lemma foldl_preserve {σ α : Type} (f : σ → α → σ) (P : σ → Prop)
    (hf : ∀ s a, P s → P (f s a)) :
    ∀ (l : List α) (s : σ), P s → P (l.foldl f s) := by
  intro l
  induction l with
  | nil =>
    intro s h
    simpa using h
  | cons a t ih =>
    intro s h
    rw [List.foldl_cons]
    exact ih _ (hf s a h)

lemma runTargets_state_preserve (cfg : RenderConfig) (u : Bool) (mdp : ℤ)
    (P : FetchState → Prop)
    (hstep : ∀ st m, P st → P (processMetric cfg u st m)) :
    ∀ (ts : List String) (st : FetchState) (res : List String),
      P st → P (runTargets cfg u mdp ts st res).1 := by
  intro ts
  induction ts with
  | nil =>
    intro st res h
    simpa [runTargets] using h
  | cons t rest ih =>
    intro st res h
    rw [runTargets]
    by_cases hp : cfg.parseOk
      (if 0 < mdp then "maxDataPoints(" ++ t ++ ", " ++ toString mdp ++ ")" else t)
    · rw [if_pos hp]
      exact ih _ _ (foldl_preserve _ P hstep _ st h)
    · rw [if_neg hp]
      exact h

lemma renderFetch_keys_nodup (cfg : RenderConfig) :
    (((renderFetch cfg).1.metricMap).map Prod.fst).Nodup := by
  unfold renderFetch
  exact runTargets_state_preserve cfg _ _
    (fun st => ((st.metricMap.map Prod.fst)).Nodup)
    (fun st m h => processMetric_keys_nodup cfg _ st m h)
    _ _ _ (by simp)

lemma renderFetch_find_once (cfg : RenderConfig)
    (hU : useCacheOf cfg.form = true)
    (hzf : ∀ g, (cfg.zipperFind g).isSome = true)
    (hmk : ∀ g, cfg.marshalOk g = true)
    (hrt : ∀ g, cfg.retains g = true) :
    ∀ g, (findCalls (renderFetch cfg).1.steps).count g ≤ 1 := by
  have h := runTargets_state_preserve cfg true (maxDataPointsOf cfg.form) (FindInv cfg)
    (fun st m h => processMetric_findInv cfg hzf hmk hrt st m h)
    (targetsOf cfg.form) ⟨[], cfg.findCache0, []⟩ []
    (by
      intro g
      constructor
      · intro _
        simp [findCalls]
      · simp [findCalls])
  intro g
  have hrw : renderFetch cfg
      = runTargets cfg true (maxDataPointsOf cfg.form) (targetsOf cfg.form)
          ⟨[], cfg.findCache0, []⟩ [] := by
    unfold renderFetch
    rw [hU]
  rw [hrw]
  exact (h g).2

lemma renderFetch_renders_nodup (cfg : RenderConfig)
    (hz : ∀ g r, cfg.zipperFind g = some r → (r.Matches.map GlobMatch.Path).Nodup)
    (hc0 : ∀ g r, assocGet cfg.findCache0 g = some (some r) →
      (r.Matches.map GlobMatch.Path).Nodup) :
    ∀ s ∈ (renderFetch cfg).1.steps, s.renders.Nodup := by
  unfold renderFetch
  exact (runTargets_state_preserve cfg _ _ RendersInv
    (fun st m h => processMetric_rendersInv cfg _ st m hz hc0 h)
    _ _ _ ⟨hc0, by simp⟩).2

/-- C1 (amended): within one request, `metricMap` has at most one entry per
distinct `MetricRequest`.  At most one `Zipper.Find` is issued per glob
provided the request does not disable caching, every Find succeeds, every
Found response marshals, and the find cache retains this request's stores
(as the in-memory expireCache does); under `noCache`, a failing Find, a
failed Marshal, or a non-retaining cache (nullCache, memcached
misses/timeouts), the same glob can be Found repeatedly.  Each processing of
a `MetricRequest` issues at most one `Zipper.Render` per
`(leaf path, from, until)` given distinct match paths per response; the same
leaf may be Rendered again for a different `MetricRequest` whose glob also
matches it. -/
theorem renderHandler_fetch_dedup (cfg : RenderConfig) :
    ((renderHandler cfg).metricMap.map Prod.fst).Nodup
    ∧ (useCacheOf cfg.form = true →
        (∀ g, (cfg.zipperFind g).isSome = true) →
        (∀ g, cfg.marshalOk g = true) →
        (∀ g, cfg.retains g = true) →
        ∀ g, (findCalls (renderHandler cfg).steps).count g ≤ 1)
    ∧ ((∀ g r, cfg.zipperFind g = some r →
          (r.Matches.map GlobMatch.Path).Nodup) →
        (∀ g r, assocGet cfg.findCache0 g = some (some r) →
          (r.Matches.map GlobMatch.Path).Nodup) →
        ∀ s ∈ (renderHandler cfg).steps, s.renders.Nodup) := by
  have h1 := renderFetch_keys_nodup cfg
  have h2 := renderFetch_find_once cfg
  have h3 := renderFetch_renders_nodup cfg
  unfold renderHandler
  split
  · exact ⟨by simp, fun _ _ _ _ g => by simp [findCalls], fun _ _ s hs => by simp at hs⟩
  · split
    · exact ⟨by simp, fun _ _ _ _ g => by simp [findCalls], fun _ _ s hs => by simp at hs⟩
    · rcases hrr : renderFetch cfg with ⟨st, res, perr⟩
      rw [hrr] at h1 h2 h3
      cases perr
      · exact ⟨h1, fun hU hzf hmk hrt g => h2 hU hzf hmk hrt g,
          fun hz hc0 => h3 hz hc0⟩
      · exact ⟨h1, fun hU hzf hmk hrt g => h2 hU hzf hmk hrt g,
          fun hz hc0 => h3 hz hc0⟩

/-- C1 counterexample input (a): `noCache=1` with two `MetricRequest`s that
share the glob `m` but differ in their time shift. -/
def findDupConfig : RenderConfig :=
  { form := [("target", "t1"), ("noCache", "1")]
    queryCache := fun _ => none
    findCache0 := []
    zipperFind := fun g => some ⟨g, [⟨"m.x", true⟩]⟩
    marshalOk := fun _ => true
    retains := fun _ => true
    renderOk := fun _ _ _ => true
    metricsOf := fun _ => [⟨"m", 0, 0⟩, ⟨"m", 10, 0⟩]
    parseOk := fun _ => true
    evalOf := fun _ => ["s"]
    marshal := fun _ _ => "B"
    from32 := 0
    until32 := 100 }

/-- C1 counterexample input (b): the globs `a.*` and `a.b` both match the
leaf `a.b` over the same window; caching fully on. -/
def renderDupConfig : RenderConfig :=
  { form := [("target", "t")]
    queryCache := fun _ => none
    findCache0 := []
    zipperFind := fun g => some ⟨g, [⟨"a.b", true⟩]⟩
    marshalOk := fun _ => true
    retains := fun _ => true
    renderOk := fun _ _ _ => true
    metricsOf := fun _ => [⟨"a.*", 0, 0⟩, ⟨"a.b", 0, 0⟩]
    parseOk := fun _ => true
    evalOf := fun _ => ["s"]
    marshal := fun _ _ => "B"
    from32 := 0
    until32 := 100 }

/-- C1 counterexample input (c): caching on, but `Zipper.Find` fails
(main.go:251-254 logs and continues, caching nothing), so the glob is Found
again for the next `MetricRequest`. -/
def findErrConfig : RenderConfig :=
  { form := [("target", "t")]
    queryCache := fun _ => none
    findCache0 := []
    zipperFind := fun _ => none
    marshalOk := fun _ => true
    retains := fun _ => true
    renderOk := fun _ _ _ => true
    metricsOf := fun _ => [⟨"m", 0, 0⟩, ⟨"m", 10, 0⟩]
    parseOk := fun _ => true
    evalOf := fun _ => ["s"]
    marshal := fun _ _ => "B"
    from32 := 0
    until32 := 100 }

/-- C1 counterexample input (d): caching on and Finds succeed, but the bytes
cache does not retain stores (nullCache; memcached whose gets miss), so the
second `MetricRequest` sharing the glob Finds it again. -/
def nullCacheConfig : RenderConfig :=
  { form := [("target", "t")]
    queryCache := fun _ => none
    findCache0 := []
    zipperFind := fun g => some ⟨g, [⟨"m.x", true⟩]⟩
    marshalOk := fun _ => true
    retains := fun _ => false
    renderOk := fun _ _ _ => true
    metricsOf := fun _ => [⟨"m", 0, 0⟩, ⟨"m", 10, 0⟩]
    parseOk := fun _ => true
    evalOf := fun _ => ["s"]
    marshal := fun _ _ => "B"
    from32 := 0
    until32 := 100 }

/-- C1 counterexample: the handler issues two Finds for the glob `m` under
`noCache=1`, two Renders for `("a.b", 0, 100)` when overlapping globs match
the same leaf, and — with caching on — two Finds for `m` when the Find
errors or when the bytes cache does not retain the store, so "at most one
Find per glob (after consulting the find-cache)" and "at most one Render per
(leaf path, from, until)" are violated as stated. -/
theorem fetch_dedup_counterexample :
    findCalls (renderHandler findDupConfig).steps = ["m", "m"]
    ∧ renderCalls (renderHandler renderDupConfig).steps
        = [("a.b", 0, 100), ("a.b", 0, 100)]
    ∧ (useCacheOf findErrConfig.form = true
        ∧ findCalls (renderHandler findErrConfig).steps = ["m", "m"])
    ∧ (useCacheOf nullCacheConfig.form = true
        ∧ findCalls (renderHandler nullCacheConfig).steps = ["m", "m"]) := by
  exact ⟨by decide, by decide, ⟨by decide, by decide⟩, ⟨by decide, by decide⟩⟩

def dedupWitnessConfig : RenderConfig :=
  { form := [("target", "x")]
    queryCache := fun _ => none
    findCache0 := []
    zipperFind := fun _ => some ⟨"x", [⟨"x", true⟩]⟩
    marshalOk := fun _ => true
    retains := fun _ => true
    renderOk := fun _ _ _ => true
    metricsOf := fun _ => [⟨"x", 0, 0⟩]
    parseOk := fun _ => true
    evalOf := fun _ => ["s"]
    marshal := fun _ _ => "B"
    from32 := 0
    until32 := 100 }

/-- Witness for the amended C1 on a one-target, one-metric request with a
healthy zipper and a retaining cache. -/
theorem renderHandler_fetch_dedup_witness :
    ((renderHandler dedupWitnessConfig).metricMap.map Prod.fst).Nodup
    ∧ (findCalls (renderHandler dedupWitnessConfig).steps).count "x" ≤ 1
    ∧ (FetchStep.renders ⟨⟨"x", 0, 100⟩, true, [("x", 0, 100)]⟩).Nodup := by
  have h := renderHandler_fetch_dedup dedupWitnessConfig
  refine ⟨h.1, h.2.1 (by decide) (fun g => rfl) (fun g => rfl) (fun g => rfl) "x", ?_⟩
  exact h.2.2
    (fun g r hgr => by
      cases hgr
      decide)
    (fun g r hr => by simp [assocGet, dedupWitnessConfig] at hr)
    ⟨⟨"x", 0, 100⟩, true, [("x", 0, 100)]⟩ (by decide)

/-- C4 counterexample input: the query cache already holds the request's
cache key while `from32 = until32`. -/
def emptyRangeCachedConfig : RenderConfig :=
  { form := [("target", "a")]
    queryCache := fun _ => some "stale"
    findCache0 := []
    zipperFind := fun g => some ⟨g, []⟩
    marshalOk := fun _ => true
    retains := fun _ => true
    renderOk := fun _ _ _ => true
    metricsOf := fun _ => []
    parseOk := fun _ => true
    evalOf := fun _ => []
    marshal := fun _ _ => ""
    from32 := 7
    until32 := 7 }

/-- C4 counterexample: the cache lookup (main.go:196-200) precedes the
time-range check (main.go:204-209), so a cache hit is served with 200 even
though the parsed `from` equals the parsed `until`. -/
theorem renderHandler_emptyRange_counterexample :
    emptyRangeCachedConfig.from32 = emptyRangeCachedConfig.until32
    ∧ (renderHandler emptyRangeCachedConfig).outcome = RenderOutcome.cachedHit "stale"
    ∧ (renderHandler emptyRangeCachedConfig).outcome ≠ RenderOutcome.emptyRange := by
  exact ⟨by decide, by decide, by decide⟩

/-- C4 (amended): when `from32 = until32`, the handler answers 400 "Invalid
empty time range" and issues no zipper calls — unless the request is served
straight from the query cache, whose lookup comes first. -/
theorem renderHandler_emptyRange_400 (cfg : RenderConfig)
    (hmiss : useCacheOf cfg.form = true →
      cfg.queryCache (cacheKeyOf cfg.form) = none)
    (heq : cfg.from32 = cfg.until32) :
    (renderHandler cfg).outcome = RenderOutcome.emptyRange
    ∧ findCalls (renderHandler cfg).steps = []
    ∧ renderCalls (renderHandler cfg).steps = []
    ∧ (renderHandler cfg).querySet = none := by
  have hq : (if useCacheOf cfg.form then cfg.queryCache (cacheKeyOf cfg.form) else none)
      = none := by
    cases hu : useCacheOf cfg.form
    · simp
    · simpa using hmiss hu
  unfold renderHandler
  rw [hq, if_pos heq]
  exact ⟨rfl, rfl, rfl, rfl⟩

def emptyRangeWitnessConfig : RenderConfig :=
  { form := [("target", "a")]
    queryCache := fun _ => none
    findCache0 := []
    zipperFind := fun g => some ⟨g, []⟩
    marshalOk := fun _ => true
    retains := fun _ => true
    renderOk := fun _ _ _ => true
    metricsOf := fun _ => []
    parseOk := fun _ => true
    evalOf := fun _ => []
    marshal := fun _ _ => ""
    from32 := 3
    until32 := 3 }

/-- Witness for the amended C4. -/
theorem renderHandler_emptyRange_400_witness :
    (renderHandler emptyRangeWitnessConfig).outcome = RenderOutcome.emptyRange
    ∧ findCalls (renderHandler emptyRangeWitnessConfig).steps = []
    ∧ renderCalls (renderHandler emptyRangeWitnessConfig).steps = []
    ∧ (renderHandler emptyRangeWitnessConfig).querySet = none :=
  renderHandler_emptyRange_400 emptyRangeWitnessConfig (fun _ => rfl) rfl

/-- The TTL the amended C5 specifies: 60 seconds unless a supplied
`cacheTimeout` parses with `strconv.Atoi`, in which case that value converted
to int32 (two's-complement wrap) is used. -/
def cacheTimeoutSpec (form : List (String × String)) : ℤ :=
  match atoi (formValue form "cacheTimeout") with
  | some t => toInt32 t
  | none => 60

lemma cacheTimeoutOf_eq_spec (form : List (String × String)) :
    cacheTimeoutOf form = cacheTimeoutSpec form := by
  unfold cacheTimeoutOf cacheTimeoutSpec
  by_cases hs : formValue form "cacheTimeout" = ""
  · rw [if_pos hs, hs]
    rfl
  · rw [if_neg hs]
    cases atoi (formValue form "cacheTimeout") <;> rfl

/-- C5 counterexample input: `cacheTimeout=4294967296` (= 2^32) parses as
an integer but `int32(4294967296) = 0`. -/
def ttlWrapConfig : RenderConfig :=
  { form := [("target", "t"), ("cacheTimeout", "4294967296")]
    queryCache := fun _ => none
    findCache0 := []
    zipperFind := fun g => some ⟨g, []⟩
    marshalOk := fun _ => true
    retains := fun _ => true
    renderOk := fun _ _ _ => true
    metricsOf := fun _ => []
    parseOk := fun _ => true
    evalOf := fun _ => ["series"]
    marshal := fun _ _ => "BODY"
    from32 := 0
    until32 := 100 }

/-- C5 counterexample: a `cacheTimeout` that parses as the integer 2^32 is
stored with TTL `int32(2^32) = 0`, not with "that value" as claimed. -/
theorem renderHandler_ttl_counterexample :
    atoi "4294967296" = some 4294967296
    ∧ (renderHandler ttlWrapConfig).results ≠ []
    ∧ (renderHandler ttlWrapConfig).querySet
        = some (cacheKeyOf ttlWrapConfig.form, "BODY", 0)
    ∧ (0 : ℤ) ≠ 4294967296 := by
  exact ⟨by decide, by decide, rfl, by decide⟩

/-- C5 (amended): when the handler reaches the encode stage, it stores the
encoded body in the query cache under the cache key exactly when the result
list is non-empty, with TTL 60 unless `cacheTimeout` parses as an integer,
in which case that value converted to int32 is used. -/
theorem renderHandler_querySet_spec (cfg : RenderConfig) (body : String)
    (hdone : (renderHandler cfg).outcome = RenderOutcome.done body) :
    ((renderHandler cfg).querySet = none ↔ (renderHandler cfg).results = [])
    ∧ ((renderHandler cfg).results ≠ [] →
        (renderHandler cfg).querySet
          = some (cacheKeyOf cfg.form, body, cacheTimeoutSpec cfg.form)) := by
  cases hq : (if useCacheOf cfg.form then cfg.queryCache (cacheKeyOf cfg.form) else none) with
  | some resp =>
    have hch : renderHandler cfg = ⟨RenderOutcome.cachedHit resp, [], [], [], none⟩ := by
      unfold renderHandler
      rw [hq]
    rw [hch] at hdone
    simp at hdone
  | none =>
    by_cases hne : cfg.from32 = cfg.until32
    · have hch : renderHandler cfg = ⟨RenderOutcome.emptyRange, [], [], [], none⟩ := by
        unfold renderHandler
        rw [hq, if_pos hne]
      rw [hch] at hdone
      simp at hdone
    · rcases hrr : renderFetch cfg with ⟨st, res, perr⟩
      cases perr with
      | some t =>
        have hch : renderHandler cfg
            = ⟨RenderOutcome.parseError t, st.steps, st.metricMap, res, none⟩ := by
          unfold renderHandler
          rw [hq, if_neg hne, hrr]
        rw [hch] at hdone
        simp at hdone
      | none =>
        have hch : renderHandler cfg
            = ⟨RenderOutcome.done (cfg.marshal (formatOf cfg.form) res),
                st.steps, st.metricMap, res,
                if res.length ≠ 0
                then some (cacheKeyOf cfg.form, cfg.marshal (formatOf cfg.form) res,
                  cacheTimeoutOf cfg.form)
                else none⟩ := by
          unfold renderHandler
          rw [hq, if_neg hne, hrr]
        rw [hch] at hdone ⊢
        have hbody : cfg.marshal (formatOf cfg.form) res = body := by
          simpa using hdone
        by_cases hres : res = []
        · subst hres
          simp
        · have hlen : res.length ≠ 0 := by
            simpa [List.length_eq_zero] using hres
          constructor
          · simp [hlen, hres]
          · intro _
            simp [hlen, hbody, cacheTimeoutOf_eq_spec]

def querySetWitnessConfig : RenderConfig :=
  { form := [("target", "t")]
    queryCache := fun _ => none
    findCache0 := []
    zipperFind := fun g => some ⟨g, []⟩
    marshalOk := fun _ => true
    retains := fun _ => true
    renderOk := fun _ _ _ => true
    metricsOf := fun _ => []
    parseOk := fun _ => true
    evalOf := fun _ => ["s"]
    marshal := fun _ _ => "B"
    from32 := 0
    until32 := 1 }

/-- Witness for the amended C5 on a request with one non-empty result. -/
theorem renderHandler_querySet_spec_witness :
    ((renderHandler querySetWitnessConfig).querySet = none
        ↔ (renderHandler querySetWitnessConfig).results = [])
    ∧ (renderHandler querySetWitnessConfig).querySet
        = some (cacheKeyOf querySetWitnessConfig.form, "B",
            cacheTimeoutSpec querySetWitnessConfig.form) := by
  have h := renderHandler_querySet_spec querySetWitnessConfig "B" (by decide)
  exact ⟨h.1, h.2 (by decide)⟩
